import Mathlib

/-!
Verification of the pump-optimisation application (`src/app.py`).

The development embeds the data model and the three logic components of the
program — the combinatorial optimiser `optimise_for_flow`, the session-state
tie-break protocol, and the hydraulic power-to-flow conversion — as executable
Lean definitions over `ℚ` (Python floats are modelled by exact rationals, so
every constant such as `0.01`, `9.80665` or `0.045268` is represented exactly).

Modelling conventions:
* a Python dict `pump_data` (ordered, unique keys) is an association list
  `List (String × PumpData)`; dict lookup is `List.lookup`;
* `itertools.product([0, 1], repeat=n)` is `flagLists n`, which enumerates the
  flag tuples in the same order (first coordinate varies slowest);
* Python's stable `list.sort(key=total_power)` is `List.insertionSort powLe`,
  which is likewise a stable sort by total power;
* `random.choice(best_combos)` is modelled by an externally supplied index
  `k`, reduced modulo the length of the tied list;
* `hash(tuple(sorted(pumps_on)))` — a canonical order-independent fingerprint
  of the active set — is modelled by the multiset of pump ids;
* `st.session_state` is an explicit `SessionState` value threaded in and out.
-/

namespace PumpOpt

open scoped List

/-- One pump of the catalog: nominal flow/power, optional observed overrides
and the availability flag (`src/app.py`, the `pump_data[pid]` record). -/
structure PumpData where
  nom_flow : ℚ
  nom_power : ℚ
  obs_flow : Option ℚ
  obs_power : Option ℚ
  avail : Bool
deriving DecidableEq

/-- The pump mapping: an ordered association list with the dict's key order. -/
abbrev PumpMap := List (String × PumpData)

/-- Effective flow: `d["obs_flow"] if d["obs_flow"] is not None else d["nom_flow"]`. -/
def eff_flow (d : PumpData) : ℚ := d.obs_flow.getD d.nom_flow

/-- Effective power: `d["obs_power"] if d["obs_power"] is not None else d["nom_power"]`. -/
def eff_power (d : PumpData) : ℚ := d.obs_power.getD d.nom_power

/-- Dict access `pump_data[pid]` (total function; the program only looks up
ids that are keys of the mapping). -/
def lookupPump (data : PumpMap) (pid : String) : PumpData :=
  (data.lookup pid).getD ⟨0, 0, none, none, false⟩

/-- `pids = [pid for pid, d in pump_data.items() if d["avail"]]`. -/
def avail_pids (data : PumpMap) : List String :=
  (data.filter (fun p => p.2.avail)).map (fun p => p.1)

/-- `total_available_flow`: sum of effective flows over the available units. -/
def total_available_flow (data : PumpMap) : ℚ :=
  ((data.filter (fun p => p.2.avail)).map (fun p => eff_flow p.2)).sum

/-- A candidate solution record `{"pumps_on": …, "total_flow": …, "total_power": …}`. -/
structure Combo where
  pumps_on : List String
  total_flow : ℚ
  total_power : ℚ
deriving DecidableEq

instance : Inhabited Combo := ⟨⟨[], 0, 0⟩⟩

/-- `itertools.product([0, 1], repeat=n)`: all flag tuples of length `n`,
the first coordinate varying slowest, `0` (= `false`) before `1`. -/
def flagLists : Nat → List (List Bool)
  | 0 => [[]]
  | n + 1 =>
      (flagLists n).map (fun l => false :: l) ++ (flagLists n).map (fun l => true :: l)

/-- The active ids of one flag tuple: the loop `for flag, pid in zip(combo, pids):
if flag: active.append(pid)`. -/
def activeOf (flags : List Bool) (pids : List String) : List String :=
  ((flags.zip pids).filter (fun fp => fp.1)).map (fun fp => fp.2)

/-- Total effective flow of a list of pump ids (the `F` accumulator). -/
def subsetFlow (data : PumpMap) (s : List String) : ℚ :=
  (s.map (fun pid => eff_flow (lookupPump data pid))).sum

/-- Total effective power of a list of pump ids (the `P` accumulator). -/
def subsetPower (data : PumpMap) (s : List String) : ℚ :=
  (s.map (fun pid => eff_power (lookupPump data pid))).sum

/-- The candidate record built for one flag tuple. -/
def comboFor (data : PumpMap) (pids : List String) (flags : List Bool) : Combo :=
  ⟨activeOf flags pids,
   subsetFlow data (activeOf flags pids),
   subsetPower data (activeOf flags pids)⟩

/-- `valid_combos` before sorting: every enumerated subset whose total flow
meets the target (`if F >= target_flow`), in enumeration order. -/
def valid_combos (data : PumpMap) (target_flow : ℚ) : List Combo :=
  ((flagLists (avail_pids data).length).map (comboFor data (avail_pids data))).filter
    (fun c => target_flow ≤ c.total_flow)

/-- The sort key order `key=lambda x: x["total_power"]`. -/
def powLe (a b : Combo) : Prop := a.total_power ≤ b.total_power

instance : DecidableRel powLe :=
  fun a b => inferInstanceAs (Decidable (a.total_power ≤ b.total_power))

instance : IsTotal Combo powLe := ⟨fun a b => le_total a.total_power b.total_power⟩

instance : IsTrans Combo powLe := ⟨fun _ _ _ h h' => le_trans h h'⟩

/-- `valid_combos.sort(key=lambda x: x["total_power"])`: Python's sort is
stable, as is insertion sort with a `≤` comparison. -/
def sorted_combos (data : PumpMap) (target_flow : ℚ) : List Combo :=
  (valid_combos data target_flow).insertionSort powLe

/-- `best_combos`: the candidates whose total power is within `0.01` of the
minimum (`min_power = valid_combos[0]["total_power"]` after the sort). -/
def best_combos (data : PumpMap) (target_flow : ℚ) : List Combo :=
  (sorted_combos data target_flow).filter
    (fun c => |c.total_power - (sorted_combos data target_flow).headI.total_power| < 1/100)

/-- The order-independent fingerprint of an active set:
`hash(tuple(sorted(selected["pumps_on"])))` modelled as the multiset of ids. -/
def fingerprint (c : Combo) : Multiset String := (c.pumps_on : Multiset String)

/-- The two `st.session_state` keys the optimiser reads and writes:
`last_solution_hash` (absent ≘ `none`) and `reset_selection` (absent ≘ `false`). -/
structure SessionState where
  last_solution_hash : Option (Multiset String)
  reset_selection : Bool
deriving DecidableEq

/-- The three outcomes of `optimise_for_flow`: the infeasibility dict
`{"error": "insufficient_flow", "available_flow": …}`, the absent result
`None`, and a success record. -/
inductive OptResult where
  | insufficient (available_flow : ℚ)
  | noCombo
  | success (c : Combo)
deriving DecidableEq

/-- `optimise_for_flow(pump_data, target_flow, allow_random)` (`src/app.py`
lines 270–326), with the session state passed explicitly and the random draw
supplied as the index `k` into the tied list. -/
def optimise_for_flow (st : SessionState) (k : Nat) (pump_data : PumpMap)
    (target_flow : ℚ) (allow_random : Bool) : OptResult × SessionState :=
  if total_available_flow pump_data < target_flow then
    (.insufficient (total_available_flow pump_data), st)
  else if sorted_combos pump_data target_flow = [] then
    (.noCombo, st)
  else
    let bc := best_combos pump_data target_flow
    if allow_random = true ∧ 1 < bc.length then
      if st.reset_selection then
        let selected := bc.getD (k % bc.length) default
        (.success selected, ⟨some (fingerprint selected), false⟩)
      else
        match st.last_solution_hash with
        | some h =>
          match bc.find? (fun c => decide (fingerprint c = h)) with
          | some c => (.success c, st)
          | none => (.success bc.headI, st)
        | none => (.success bc.headI, st)
    else
      (.success bc.headI, st)

/-! ## Hydraulic model (`HydroPowerCalculator` and the calculate block) -/

/-- `FIXED_HEAD = 88.0`. -/
def FIXED_HEAD : ℚ := 88

/-- `g = 9.80665`. -/
def g : ℚ := 9.80665

/-- Seawater density `self.rho = 1000 - 0.2 * temperature + 0.8 * salinity`. -/
def seawater_rho (temperature salinity : ℚ) : ℚ :=
  1000 - 0.2 * temperature + 0.8 * salinity

/-- `HydroPowerCalculator._poly_efficiency`: the three-segment piecewise
quadratic pump-efficiency curve keyed on discharge in L/s, clamped to
`[1e-6, 1.0]`. -/
def poly_efficiency (Q : ℚ) : ℚ :=
  let flow_lps := Q * 1000
  let R :=
    if flow_lps ≤ 3000 then
      -0.000006 * flow_lps^2 + 0.045268 * flow_lps + 0.024584
    else if flow_lps ≤ 5000 then
      -0.000003 * flow_lps^2 + 0.027302 * flow_lps + 24.666018
    else
      -0.000005 * flow_lps^2 + 0.051009 * flow_lps + -36.439183
  max (min (R / 100) 1) 0.000001

/-- `HydroPowerCalculator._get_motor_efficiency`: motor efficiency from the
nominal-flow bucket. -/
def get_motor_efficiency (nominal_flow_m3h : ℚ) : ℚ :=
  if |nominal_flow_m3h - 18000| < 100 then 0.971
  else if |nominal_flow_m3h - 15000| < 100 then 0.965
  else if |nominal_flow_m3h - 9000| < 100 then 0.965
  else 0.96

/-- The per-unit power-to-flow conversion of the calculate block
(`src/app.py` lines 473–484): fixed pump efficiency `0.81`, motor efficiency
from the nominal flow, `Q_m3s = power_W * eta_total / (rho * g * H)` guarded
by `rho * g * H > 0`, then `* 3600`.  The piecewise curve `poly_efficiency`
is not referenced on this path. -/
def calculated_flow_m3h (power_kw temperature salinity nom_flow : ℚ) : ℚ :=
  let rho := seawater_rho temperature salinity
  let H := FIXED_HEAD
  let eta_total := 0.81 * get_motor_efficiency nom_flow
  let power_w := power_kw * 1000
  (if 0 < rho * g * H then power_w * eta_total / (rho * g * H) else 0) * 3600

/-! ## Lemmas about the association-list pump mapping -/

theorem lookup_mem {pid : String} {d : PumpData} :
    ∀ {data : PumpMap}, data.lookup pid = some d → (pid, d) ∈ data := by
  intro data
  induction data with
  | nil => intro h; simp [List.lookup] at h
  | cons p t ih =>
    obtain ⟨key, b⟩ := p
    intro h
    simp only [List.lookup] at h
    by_cases hbe : (pid == key) = true
    · rw [hbe] at h
      cases h
      exact (by rw [eq_of_beq hbe]; exact List.mem_cons_self _ _)
    · rw [Bool.not_eq_true] at hbe
      rw [hbe] at h
      exact List.mem_cons_of_mem _ (ih h)

theorem lookup_of_mem_keys {pid : String} :
    ∀ {data : PumpMap}, pid ∈ data.map Prod.fst → ∃ d, data.lookup pid = some d := by
  intro data
  induction data with
  | nil => simp
  | cons p t ih =>
    obtain ⟨key, b⟩ := p
    intro h
    simp only [List.lookup]
    by_cases hbe : (pid == key) = true
    · rw [hbe]; exact ⟨b, rfl⟩
    · rw [Bool.not_eq_true] at hbe
      rw [hbe]
      apply ih
      rcases List.mem_cons.mp h with h1 | h1
      · exact absurd (by simp [h1] : (pid == key) = true) (by simp [hbe])
      · exact h1

theorem mem_keys_of_mem_avail {pid : String} {data : PumpMap}
    (h : pid ∈ avail_pids data) : pid ∈ data.map Prod.fst := by
  simp only [avail_pids, List.mem_map] at h
  obtain ⟨p, hp, rfl⟩ := h
  exact List.mem_map_of_mem _ (List.mem_of_mem_filter hp)

theorem lookupPump_mem {pid : String} {data : PumpMap}
    (h : pid ∈ avail_pids data) : (pid, lookupPump data pid) ∈ data := by
  obtain ⟨d, hd⟩ := lookup_of_mem_keys (mem_keys_of_mem_avail h)
  rw [lookupPump, hd]
  exact lookup_mem hd

/-! ## Lemmas about the subset enumeration -/

@[simp] theorem activeOf_nil_left (pids : List String) : activeOf [] pids = [] := rfl

@[simp] theorem activeOf_nil_right (flags : List Bool) : activeOf flags [] = [] := by
  cases flags <;> rfl

@[simp] theorem activeOf_false (fs : List Bool) (p : String) (t : List String) :
    activeOf (false :: fs) (p :: t) = activeOf fs t := by
  simp [activeOf, List.filter_cons]

@[simp] theorem activeOf_true (fs : List Bool) (p : String) (t : List String) :
    activeOf (true :: fs) (p :: t) = p :: activeOf fs t := by
  simp [activeOf, List.filter_cons]

theorem activeOf_sublist : ∀ (flags : List Bool) (pids : List String),
    activeOf flags pids <+ pids
  | [], _ => by simp
  | _ :: _, [] => by simp
  | false :: fs, p :: t => by
    rw [activeOf_false]
    exact (activeOf_sublist fs t).cons p
  | true :: fs, p :: t => by
    rw [activeOf_true]
    exact (activeOf_sublist fs t).cons₂ p

theorem replicate_true_mem : ∀ n : Nat, List.replicate n true ∈ flagLists n := by
  intro n
  induction n with
  | zero => simp [flagLists]
  | succ n ih =>
    simp only [flagLists, List.mem_append, List.mem_map, List.replicate_succ]
    exact Or.inr ⟨List.replicate n true, ih, rfl⟩

theorem flagLists_head : ∀ n : Nat, ∃ tl, flagLists n = List.replicate n false :: tl := by
  intro n
  induction n with
  | zero => exact ⟨[], rfl⟩
  | succ n ih =>
    obtain ⟨tl, htl⟩ := ih
    exact ⟨List.map (fun l => false :: l) tl ++ (flagLists n).map (fun l => true :: l),
      by rw [flagLists, htl, List.map_cons, List.replicate_succ, List.cons_append]⟩

theorem activeOf_replicate_true : ∀ pids : List String,
    activeOf (List.replicate pids.length true) pids = pids
  | [] => rfl
  | p :: t => by
    rw [List.length_cons, List.replicate_succ, activeOf_true, activeOf_replicate_true t]

theorem activeOf_replicate_false : ∀ (n : Nat) (pids : List String),
    activeOf (List.replicate n false) pids = []
  | 0, _ => rfl
  | _ + 1, [] => by simp
  | n + 1, p :: t => by
    rw [List.replicate_succ, activeOf_false, activeOf_replicate_false n t]

theorem exists_flags_of_sublist {s pids : List String} (h : s <+ pids) :
    ∃ flags ∈ flagLists pids.length, activeOf flags pids = s := by
  induction h with
  | slnil => exact ⟨[], by simp [flagLists], rfl⟩
  | @cons l₁ l₂ a _ ih =>
    obtain ⟨flags, hmem, hact⟩ := ih
    refine ⟨false :: flags, ?_, by rw [activeOf_false, hact]⟩
    simp only [List.length_cons, flagLists, List.mem_append, List.mem_map]
    exact Or.inl ⟨flags, hmem, rfl⟩
  | @cons₂ l₁ l₂ a _ ih =>
    obtain ⟨flags, hmem, hact⟩ := ih
    refine ⟨true :: flags, ?_, by rw [activeOf_true, hact]⟩
    simp only [List.length_cons, flagLists, List.mem_append, List.mem_map]
    exact Or.inr ⟨flags, hmem, rfl⟩

/-! ## Lemmas about `valid_combos` -/

theorem mem_valid_combos_elim {data : PumpMap} {t : ℚ} {c : Combo}
    (hc : c ∈ valid_combos data t) :
    c.pumps_on <+ avail_pids data ∧ c.total_flow = subsetFlow data c.pumps_on ∧
      c.total_power = subsetPower data c.pumps_on ∧ t ≤ c.total_flow := by
  obtain ⟨hmem, hflow⟩ := List.mem_filter.mp hc
  obtain ⟨flags, _, rfl⟩ := List.mem_map.mp hmem
  exact ⟨activeOf_sublist flags (avail_pids data), rfl, rfl, of_decide_eq_true hflow⟩

theorem sublist_mem_valid_combos {data : PumpMap} {t : ℚ} {s : List String}
    (hs : s <+ avail_pids data) (hflow : t ≤ subsetFlow data s) :
    (⟨s, subsetFlow data s, subsetPower data s⟩ : Combo) ∈ valid_combos data t := by
  obtain ⟨flags, hmem, hact⟩ := exists_flags_of_sublist hs
  refine List.mem_filter.mpr ⟨List.mem_map.mpr ⟨flags, hmem, ?_⟩, decide_eq_true hflow⟩
  rw [comboFor, hact]

theorem avail_pids_map_eq (f : PumpData → ℚ) :
    ∀ {data : PumpMap}, (data.map Prod.fst).Nodup →
      (avail_pids data).map (fun pid => f (lookupPump data pid)) =
        (data.filter (fun p => p.2.avail)).map (fun p => f p.2) := by
  intro data
  induction data with
  | nil => intro _; rfl
  | cons p t ih =>
    intro hnd
    obtain ⟨key, b⟩ := p
    simp only [List.map_cons, List.nodup_cons] at hnd
    obtain ⟨hk, hnd'⟩ := hnd
    have htail : ∀ pid ∈ avail_pids t,
        f (lookupPump ((key, b) :: t) pid) = f (lookupPump t pid) := by
      intro pid hpid
      have hne : (pid == key) = false := by
        refine beq_eq_false_iff_ne.mpr ?_
        intro hEq
        exact hk (hEq ▸ mem_keys_of_mem_avail hpid)
      simp only [lookupPump, List.lookup, hne]
    have ih' := ih hnd'
    rw [avail_pids] at htail ih'
    by_cases hav : b.avail
    · simp only [avail_pids, List.filter_cons, hav, if_true, List.map_cons]
      rw [List.map_congr_left htail]
      have hhead : lookupPump ((key, b) :: t) key = b := by
        simp [lookupPump, List.lookup]
      rw [hhead, ih']
    · have hav' : b.avail = false := by simp [hav]
      simp only [avail_pids, List.filter_cons, hav', Bool.false_eq_true, if_false]
      rw [List.map_congr_left htail]
      exact ih'

theorem subsetFlow_avail_eq_total {data : PumpMap}
    (hnd : (data.map Prod.fst).Nodup) :
    subsetFlow data (avail_pids data) = total_available_flow data := by
  rw [subsetFlow, total_available_flow, avail_pids_map_eq eff_flow hnd]

theorem subsetFlow_le_total {data : PumpMap} {s : List String}
    (hnd : (data.map Prod.fst).Nodup)
    (hnn : ∀ p ∈ data, 0 ≤ eff_flow p.2)
    (hs : s <+ avail_pids data) :
    subsetFlow data s ≤ total_available_flow data := by
  rw [← subsetFlow_avail_eq_total hnd]
  refine List.Sublist.sum_le_sum (hs.map _) ?_
  intro a ha
  obtain ⟨pid, hpid, rfl⟩ := List.mem_map.mp ha
  exact hnn _ (lookupPump_mem hpid)

theorem subsetPower_nonneg {data : PumpMap} {s : List String}
    (hnn : ∀ p ∈ data, 0 ≤ eff_power p.2)
    (hs : ∀ pid ∈ s, pid ∈ avail_pids data) :
    0 ≤ subsetPower data s := by
  refine List.sum_nonneg ?_
  intro a ha
  obtain ⟨pid, hpid, rfl⟩ := List.mem_map.mp ha
  exact hnn _ (lookupPump_mem (hs pid hpid))

theorem total_available_flow_nonneg {data : PumpMap}
    (hnn : ∀ p ∈ data, 0 ≤ eff_flow p.2) :
    0 ≤ total_available_flow data := by
  refine List.sum_nonneg ?_
  intro a ha
  obtain ⟨p, hp, rfl⟩ := List.mem_map.mp ha
  exact hnn _ (List.mem_of_mem_filter hp)

/-- Feasibility from a qualifying candidate: when effective flows are
non-negative, any qualifying subset forces the available total to reach the
target, so the infeasibility check passes. -/
theorem feasible_of_mem_valid {data : PumpMap} {t : ℚ} {c : Combo}
    (hnd : (data.map Prod.fst).Nodup)
    (hnn : ∀ p ∈ data, 0 ≤ eff_flow p.2)
    (hc : c ∈ valid_combos data t) :
    t ≤ total_available_flow data := by
  obtain ⟨hsub, hflow, _, ht⟩ := mem_valid_combos_elim hc
  exact le_trans (hflow ▸ ht) (subsetFlow_le_total hnd hnn hsub)

/-! ## Lemmas about the sort and the tied list -/

theorem sorted_combos_perm (data : PumpMap) (t : ℚ) :
    sorted_combos data t ~ valid_combos data t :=
  List.perm_insertionSort powLe (valid_combos data t)

theorem sorted_combos_sorted (data : PumpMap) (t : ℚ) :
    (sorted_combos data t).Sorted powLe :=
  List.sorted_insertionSort powLe (valid_combos data t)

theorem sorted_combos_eq_nil_iff {data : PumpMap} {t : ℚ} :
    sorted_combos data t = [] ↔ valid_combos data t = [] := by
  constructor
  · intro h
    exact List.Perm.eq_nil (h ▸ sorted_combos_perm data t).symm |>.symm ▸ rfl
  · intro h
    rw [sorted_combos, h]
    rfl

theorem sorted_head_min {data : PumpMap} {t : ℚ} {best : Combo} {rest : List Combo}
    (h : sorted_combos data t = best :: rest) :
    ∀ c ∈ valid_combos data t, best.total_power ≤ c.total_power := by
  intro c hc
  have hc' : c ∈ sorted_combos data t := (sorted_combos_perm data t).mem_iff.mpr hc
  rw [h] at hc'
  rcases List.mem_cons.mp hc' with rfl | hc'
  · exact le_refl _
  · have := sorted_combos_sorted data t
    rw [h, List.sorted_cons] at this
    exact this.1 c hc'

theorem head_mem_valid {data : PumpMap} {t : ℚ} {best : Combo} {rest : List Combo}
    (h : sorted_combos data t = best :: rest) : best ∈ valid_combos data t :=
  (sorted_combos_perm data t).mem_iff.mp (h ▸ List.mem_cons_self best rest)

theorem best_combos_eq_cons {data : PumpMap} {t : ℚ} {best : Combo} {rest : List Combo}
    (h : sorted_combos data t = best :: rest) :
    best_combos data t =
      best :: rest.filter (fun c => |c.total_power - best.total_power| < 1/100) := by
  rw [best_combos, h]
  simp only [List.headI, List.filter_cons]
  rw [if_pos (by simp)]

theorem mem_best_combos_elim {data : PumpMap} {t : ℚ} {c : Combo}
    (hc : c ∈ best_combos data t) :
    c ∈ valid_combos data t ∧
      |c.total_power - (sorted_combos data t).headI.total_power| < 1/100 := by
  obtain ⟨hmem, hp⟩ := List.mem_filter.mp hc
  exact ⟨(sorted_combos_perm data t).mem_iff.mp hmem, of_decide_eq_true hp⟩

theorem best_combos_headI {data : PumpMap} {t : ℚ} {best : Combo} {rest : List Combo}
    (h : sorted_combos data t = best :: rest) :
    (best_combos data t).headI = best := by
  rw [best_combos_eq_cons h]
  rfl

theorem best_combos_ne_nil {data : PumpMap} {t : ℚ} {best : Combo} {rest : List Combo}
    (h : sorted_combos data t = best :: rest) : best_combos data t ≠ [] := by
  rw [best_combos_eq_cons h]
  exact List.cons_ne_nil _ _

theorem getD_mem {l : List Combo} {i : Nat} {d : Combo} (h : i < l.length) :
    l.getD i d ∈ l := by
  rw [List.getD_eq_getElem?_getD, List.getElem?_eq_getElem h, Option.getD_some]
  exact List.getElem_mem h

theorem headI_mem {l : List Combo} (h : l ≠ []) : l.headI ∈ l := by
  cases l with
  | nil => exact absurd rfl h
  | cons a t => exact List.mem_cons_self a t

/-- Every success result the optimiser can return is one of the tied
candidates `best_combos`. -/
theorem success_mem {st : SessionState} {k : Nat} {data : PumpMap} {t : ℚ}
    {ar : Bool} {c : Combo}
    (h : (optimise_for_flow st k data t ar).1 = .success c) :
    c ∈ best_combos data t := by
  rw [optimise_for_flow] at h
  by_cases h1 : total_available_flow data < t
  · rw [if_pos h1] at h
    exact absurd h (by simp)
  rw [if_neg h1] at h
  by_cases h2 : sorted_combos data t = []
  · rw [if_pos h2] at h
    exact absurd h (by simp)
  rw [if_neg h2] at h
  obtain ⟨best, rest, h3⟩ : ∃ best rest, sorted_combos data t = best :: rest := by
    cases hs : sorted_combos data t with
    | nil => exact absurd hs h2
    | cons a l => exact ⟨a, l, rfl⟩
  have hne : best_combos data t ≠ [] := best_combos_ne_nil h3
  simp only at h
  by_cases h4 : ar = true ∧ 1 < (best_combos data t).length
  · rw [if_pos h4] at h
    by_cases h5 : st.reset_selection
    · rw [if_pos h5] at h
      simp only [Prod.fst] at h
      have := (OptResult.success.injEq _ _).mp h.symm
      rw [this]
      exact getD_mem (Nat.mod_lt _ (Nat.lt_of_lt_of_le Nat.zero_lt_one (le_of_lt h4.2)))
    · rw [if_neg h5] at h
      split at h
      · split at h
        · rename_i c' hf
          simp only [Prod.fst] at h
          have := (OptResult.success.injEq _ _).mp h.symm
          rw [this]
          exact List.mem_of_find?_eq_some hf
        · simp only [Prod.fst] at h
          have := (OptResult.success.injEq _ _).mp h.symm
          rw [this]
          exact headI_mem hne
      · simp only [Prod.fst] at h
        have := (OptResult.success.injEq _ _).mp h.symm
        rw [this]
        exact headI_mem hne
  · rw [if_neg h4] at h
    simp only [Prod.fst] at h
    have := (OptResult.success.injEq _ _).mp h.symm
    rw [this]
    exact headI_mem hne

/-! ## Claims about the hydraulic model -/

/-- Claim C3, written from the spec's words: density `ρ = 1000 − 0.2·T + 0.8·S`,
total efficiency `0.81 ×` motor efficiency, discharge
`Q (m³/h) = 3600 · (power_W · η_total) / (ρ·g·H)` with `g = 9.80665`,
`H = 88.0`, and discharge `0` whenever `ρ·g·H ≤ 0`. -/
def calculated_flow_claimed (power_kw temperature salinity nom_flow : ℚ) : ℚ :=
  let rho := 1000 - 0.2 * temperature + 0.8 * salinity
  if rho * 9.80665 * 88 ≤ 0 then 0
  else 3600 * (power_kw * 1000 * (0.81 * get_motor_efficiency nom_flow)) /
    (rho * 9.80665 * 88)

/-- C3: for every power (kW), temperature and salinity, the per-unit
power-to-flow conversion of the calculate block computes exactly the
spec's formula: `ρ = 1000 − 0.2·T + 0.8·S`, total efficiency
`0.81 × η_motor` (the piecewise pump curve is not used on this path, as the
definition of `calculated_flow_m3h` shows), and
`Q = 3600·(P_W·η)/(ρ·g·H)` with `g = 9.80665`, `H = 88`, except `0` when
`ρ·g·H ≤ 0`. -/
theorem C3_conversion_formula (power_kw temperature salinity nom_flow : ℚ) :
    calculated_flow_m3h power_kw temperature salinity nom_flow =
      calculated_flow_claimed power_kw temperature salinity nom_flow := by
  rw [calculated_flow_m3h, calculated_flow_claimed, seawater_rho, g, FIXED_HEAD]
  split_ifs with h1 h2
  · linarith
  · ring
  · norm_num
  · linarith

/-- Claim C7, written from the spec's words: `0.971` within 100 units of the
18000 rating, `0.965` within 100 units of the 15000 or the 9000 rating,
default `0.96` ("within" formalised as the source's strict `|·| < 100`). -/
def motor_efficiency_claimed (nominal_flow_m3h : ℚ) : ℚ :=
  if |nominal_flow_m3h - 18000| < 100 then 0.971
  else if |nominal_flow_m3h - 15000| < 100 ∨ |nominal_flow_m3h - 9000| < 100 then 0.965
  else 0.96

/-- C7: the motor-efficiency bucket function returns `0.971` when the nominal
flow is within 100 units of 18000, `0.965` when within 100 units of 15000 or
of 9000, and the default `0.96` otherwise. -/
theorem C7_motor_efficiency (nf : ℚ) :
    get_motor_efficiency nf = motor_efficiency_claimed nf := by
  rw [get_motor_efficiency, motor_efficiency_claimed]
  split_ifs <;> first | rfl | tauto

theorem motor_efficiency_pos (nf : ℚ) : 0 < get_motor_efficiency nf := by
  rw [get_motor_efficiency]
  split_ifs <;> norm_num

/-- C8: holding temperature, salinity and nominal flow (hence head) fixed,
the power-to-discharge conversion is monotonically non-decreasing in power
(it is deterministic by construction: it is a pure function of its four
arguments). -/
theorem C8_flow_monotone_in_power (temperature salinity nom_flow p₁ p₂ : ℚ)
    (h : p₁ ≤ p₂) :
    calculated_flow_m3h p₁ temperature salinity nom_flow ≤
      calculated_flow_m3h p₂ temperature salinity nom_flow := by
  rw [calculated_flow_m3h, calculated_flow_m3h]
  split_ifs with hD
  · refine mul_le_mul_of_nonneg_right ?_ (by norm_num : (0:ℚ) ≤ 3600)
    refine (div_le_div_iff_of_pos_right hD).mpr ?_
    have he : 0 < 0.81 * get_motor_efficiency nom_flow := by
      have := motor_efficiency_pos nom_flow
      nlinarith
    nlinarith
  · exact le_refl _

/-- Witness for C8 at a concrete input. -/
theorem C8_flow_monotone_in_power_witness :
    (2400 : ℚ) ≤ 4600 ∧
      calculated_flow_m3h 2400 20 35 9000 ≤ calculated_flow_m3h 4600 20 35 9000 :=
  ⟨by norm_num, C8_flow_monotone_in_power 20 35 9000 2400 4600 (by norm_num)⟩

/-- C9 counterexample: the clamped efficiency curve is NOT continuous at the
segment boundaries.  Evaluated 1 L/s below and above each boundary, the values
differ by more than `0.01` (≈ `0.0224` at 3000 L/s and ≈ `0.0743` at
5000 L/s), so the claimed "difference does not exceed a small epsilon" fails. -/
theorem C9_counterexample :
    1/100 < |poly_efficiency 2.999 - poly_efficiency 3.001| ∧
      1/100 < |poly_efficiency 4.999 - poly_efficiency 5.001| := by
  rw [poly_efficiency, poly_efficiency, poly_efficiency, poly_efficiency]
  norm_num
  constructor <;> (rw [abs_of_pos (by norm_num)]; norm_num)

/-- C9 amended: the three-segment curve has a jump discontinuity at each
segment boundary.  For every positive offset `δ` of at most 1 L/s
(`δ ≤ 1/1000` m³/s), the clamped efficiencies just below and just above
3000 L/s differ by more than `0.01`, and likewise at 5000 L/s — the curve is
discontinuous there, with jumps of about `0.0226` and `0.0743`. -/
theorem C9_amended (δ : ℚ) (h0 : 0 < δ) (h1 : δ ≤ 1/1000) :
    1/100 < |poly_efficiency (3 - δ) - poly_efficiency (3 + δ)| ∧
      1/100 < |poly_efficiency (5 - δ) - poly_efficiency (5 + δ)| := by
  constructor
  · have e1 : poly_efficiency (3 - δ) =
        (-0.000006 * ((3 - δ) * 1000)^2 + 0.045268 * ((3 - δ) * 1000) + 0.024584) / 100 := by
      simp only [poly_efficiency]
      rw [if_pos (by nlinarith : (3 - δ) * 1000 ≤ 3000)]
      rw [min_eq_left (by nlinarith), max_eq_left (by nlinarith)]
    have e2 : poly_efficiency (3 + δ) =
        (-0.000003 * ((3 + δ) * 1000)^2 + 0.027302 * ((3 + δ) * 1000) + 24.666018) / 100 := by
      simp only [poly_efficiency]
      rw [if_neg (by nlinarith : ¬ (3 + δ) * 1000 ≤ 3000),
        if_pos (by nlinarith : (3 + δ) * 1000 ≤ 5000)]
      rw [min_eq_left (by nlinarith), max_eq_left (by nlinarith)]
    rw [e1, e2, abs_of_pos (by nlinarith)]
    nlinarith
  · have e3 : poly_efficiency (5 - δ) =
        (-0.000003 * ((5 - δ) * 1000)^2 + 0.027302 * ((5 - δ) * 1000) + 24.666018) / 100 := by
      simp only [poly_efficiency]
      rw [if_neg (by nlinarith : ¬ (5 - δ) * 1000 ≤ 3000),
        if_pos (by nlinarith : (5 - δ) * 1000 ≤ 5000)]
      rw [min_eq_left (by nlinarith), max_eq_left (by nlinarith)]
    have e4 : poly_efficiency (5 + δ) =
        (-0.000005 * ((5 + δ) * 1000)^2 + 0.051009 * ((5 + δ) * 1000) + -36.439183) / 100 := by
      simp only [poly_efficiency]
      rw [if_neg (by nlinarith : ¬ (5 + δ) * 1000 ≤ 3000),
        if_neg (by nlinarith : ¬ (5 + δ) * 1000 ≤ 5000)]
      rw [min_eq_left (by nlinarith), max_eq_left (by nlinarith)]
    rw [e3, e4, abs_sub_comm, abs_of_pos (by nlinarith)]
    nlinarith

/-- Witness for the amended C9 at offset `δ = 1/1000` (1 L/s). -/
theorem C9_amended_witness :
    (0 : ℚ) < 1/1000 ∧ (1/1000 : ℚ) ≤ 1/1000 ∧
      1/100 < |poly_efficiency (3 - 1/1000) - poly_efficiency (3 + 1/1000)| ∧
      1/100 < |poly_efficiency (5 - 1/1000) - poly_efficiency (5 + 1/1000)| :=
  ⟨by norm_num, by norm_num, (C9_amended (1/1000) (by norm_num) (by norm_num)).1,
    (C9_amended (1/1000) (by norm_num) (by norm_num)).2⟩

/-! ## Claims about the optimiser -/

/-- Once the infeasibility check passes and some candidate qualifies, every
branch of the optimiser returns a success record drawn from the tied list. -/
theorem optimise_success_exists (st : SessionState) (k : Nat) (data : PumpMap)
    (target : ℚ) (ar : Bool)
    (h1 : ¬ total_available_flow data < target)
    (h2 : sorted_combos data target ≠ []) :
    ∃ c, (optimise_for_flow st k data target ar).1 = .success c ∧
      c ∈ best_combos data target := by
  have hne : best_combos data target ≠ [] := by
    cases hs : sorted_combos data target with
    | nil => exact absurd hs h2
    | cons a l => exact best_combos_ne_nil hs
  rw [optimise_for_flow, if_neg h1, if_neg h2]
  simp only
  split
  · split
    · rename_i h4 _
      refine ⟨_, rfl, getD_mem (Nat.mod_lt _ ?_)⟩
      exact Nat.lt_of_lt_of_le Nat.zero_lt_one (le_of_lt h4.2)
    · split
      · split
        · rename_i hf
          exact ⟨_, rfl, List.mem_of_find?_eq_some hf⟩
        · exact ⟨_, rfl, headI_mem hne⟩
      · exact ⟨_, rfl, headI_mem hne⟩
  · exact ⟨_, rfl, headI_mem hne⟩

/-- C2: if the sum of effective flows (override if present, else nominal)
over the available units is strictly less than the target, the optimiser
returns the infeasibility record whose `available_flow` equals exactly that
sum, with the session state untouched.  No subset search is performed: the
definition returns before the enumeration is ever consulted. -/
theorem C2_insufficient_flow (st : SessionState) (k : Nat) (data : PumpMap)
    (target : ℚ) (ar : Bool)
    (h : ((data.filter (fun p => p.2.avail)).map
        (fun p => p.2.obs_flow.getD p.2.nom_flow)).sum < target) :
    optimise_for_flow st k data target ar =
      (.insufficient ((data.filter (fun p => p.2.avail)).map
        (fun p => p.2.obs_flow.getD p.2.nom_flow)).sum, st) := by
  have h' : total_available_flow data < target := h
  rw [optimise_for_flow, if_pos h']
  rfl

/-- A concrete one-pump mapping used by witnesses. -/
def dataA : PumpMap := [("P1", ⟨100, 10, none, none, true⟩)]

/-- Witness for C2: one available pump of flow 100, target 200. -/
theorem C2_insufficient_flow_witness :
    ((dataA.filter (fun p => p.2.avail)).map
        (fun p => p.2.obs_flow.getD p.2.nom_flow)).sum < 200 ∧
      optimise_for_flow ⟨none, false⟩ 0 dataA 200 true =
        (.insufficient ((dataA.filter (fun p => p.2.avail)).map
          (fun p => p.2.obs_flow.getD p.2.nom_flow)).sum, ⟨none, false⟩) :=
  ⟨by norm_num [dataA], C2_insufficient_flow ⟨none, false⟩ 0 dataA 200 true (by norm_num [dataA])⟩

/-- C5: whenever the available flow reaches the target (so the infeasibility
check passes), the optimiser never returns the absent result `noCombo`: the
subset of all available units always qualifies. -/
theorem C5_no_absent_result (st : SessionState) (k : Nat) (data : PumpMap)
    (target : ℚ) (ar : Bool)
    (hnd : (data.map Prod.fst).Nodup)
    (h : target ≤ total_available_flow data) :
    (optimise_for_flow st k data target ar).1 ≠ .noCombo := by
  have h1 : ¬ total_available_flow data < target := not_lt.mpr h
  have h2 : sorted_combos data target ≠ [] := by
    rw [Ne, sorted_combos_eq_nil_iff]
    intro hv
    have hful := sublist_mem_valid_combos (t := target)
      (List.Sublist.refl (avail_pids data))
      (by rw [subsetFlow_avail_eq_total hnd]; exact h)
    rw [hv] at hful
    exact List.not_mem_nil _ hful
  obtain ⟨c, hc, _⟩ := optimise_success_exists st k data target ar h1 h2
  intro hcontra
  rw [hc] at hcontra
  exact OptResult.noConfusion hcontra

/-- Witness for C5: one available pump of flow 100, target 50. -/
theorem C5_no_absent_result_witness :
    (dataA.map Prod.fst).Nodup ∧ (50 : ℚ) ≤ total_available_flow dataA ∧
      (optimise_for_flow ⟨none, false⟩ 0 dataA 50 true).1 ≠ .noCombo :=
  ⟨by decide, by norm_num [total_available_flow, dataA, eff_flow],
    C5_no_absent_result ⟨none, false⟩ 0 dataA 50 true (by decide)
      (by norm_num [total_available_flow, dataA, eff_flow])⟩

/-- C10: with `allow_random = False` and at least one qualifying subset, the
optimiser returns the first candidate of the power-sorted list — a
minimum-total-power candidate — leaves the session memory unchanged, and is
deterministic: the random index is never consulted, so two calls with
identical inputs return the identical result. -/
theorem C10_no_random_deterministic (st : SessionState) (k k' : Nat)
    (data : PumpMap) (target : ℚ)
    (hnd : (data.map Prod.fst).Nodup)
    (hnn : ∀ p ∈ data, 0 ≤ eff_flow p.2)
    (hne : valid_combos data target ≠ []) :
    optimise_for_flow st k data target false =
        (.success ((sorted_combos data target).headI), st) ∧
      (sorted_combos data target).headI ∈ valid_combos data target ∧
      (∀ c ∈ valid_combos data target,
        ((sorted_combos data target).headI).total_power ≤ c.total_power) ∧
      optimise_for_flow st k data target false =
        optimise_for_flow st k' data target false := by
  obtain ⟨best, rest, h3⟩ : ∃ b r, sorted_combos data target = b :: r := by
    cases hs : sorted_combos data target with
    | nil => exact absurd (sorted_combos_eq_nil_iff.mp hs) hne
    | cons a l => exact ⟨a, l, rfl⟩
  have hh : (sorted_combos data target).headI = best := by rw [h3]; rfl
  have h1 : ¬ total_available_flow data < target := by
    obtain ⟨c, hc⟩ := List.exists_mem_of_ne_nil _ hne
    exact not_lt.mpr (feasible_of_mem_valid hnd hnn hc)
  have key : ∀ j : Nat, optimise_for_flow st j data target false = (.success best, st) := by
    intro j
    rw [optimise_for_flow, if_neg h1, if_neg (h3 ▸ List.cons_ne_nil best rest)]
    simp only
    rw [if_neg (by simp : ¬ (false = true ∧ 1 < (best_combos data target).length))]
    rw [best_combos_headI h3]
  exact ⟨hh ▸ key k, hh ▸ head_mem_valid h3, hh ▸ sorted_head_min h3,
    (key k).trans (key k').symm⟩

/-- Witness for C10: one available pump of flow 100 and power 10, target 50. -/
theorem C10_no_random_deterministic_witness :
    (dataA.map Prod.fst).Nodup ∧ (∀ p ∈ dataA, 0 ≤ eff_flow p.2) ∧
      valid_combos dataA 50 ≠ [] ∧
      optimise_for_flow ⟨none, false⟩ 0 dataA 50 false =
        (.success ((sorted_combos dataA 50).headI), ⟨none, false⟩) :=
  ⟨by decide, by decide,
    by norm_num [valid_combos, dataA, eff_flow, eff_power, avail_pids, flagLists, comboFor,
      activeOf, subsetFlow, subsetPower, lookupPump, List.lookup],
    (C10_no_random_deterministic ⟨none, false⟩ 0 1 dataA 50 (by decide) (by decide)
      (by norm_num [valid_combos, dataA, eff_flow, eff_power, avail_pids, flagLists, comboFor,
        activeOf, subsetFlow, subsetPower, lookupPump, List.lookup])).1⟩

/-- Two pumps of equal flow whose powers differ by `0.005`, inside the `0.01`
tie tolerance. -/
def dataC1 : PumpMap :=
  [("A", ⟨100, 2001/200, none, none, true⟩), ("B", ⟨100, 10, none, none, true⟩)]

/-- C1 counterexample: with `dataC1` and target 100, pumps `{A}` (power
`10.005`) and `{B}` (power `10`) are tied within the `0.01` tolerance; with a
reset requested and random draw index 1, the optimiser returns `{A}` — yet
the qualifying subset `{B}` of the available units has strictly lower total
power.  So strict minimality of the returned record fails. -/
theorem C1_counterexample :
    (optimise_for_flow ⟨none, true⟩ 1 dataC1 100 true).1 =
        .success ⟨["A"], 100, 2001/200⟩ ∧
      ["B"] <+ avail_pids dataC1 ∧
      (100 : ℚ) ≤ subsetFlow dataC1 ["B"] ∧
      subsetPower dataC1 ["B"] < 2001/200 := by
  refine ⟨?_, ?_, ?_, ?_⟩
  · norm_num [optimise_for_flow, dataC1, total_available_flow, eff_flow, eff_power,
      sorted_combos, valid_combos, avail_pids, flagLists, comboFor, activeOf, subsetFlow,
      subsetPower, lookupPump, best_combos, List.insertionSort, List.orderedInsert, powLe,
      List.lookup, fingerprint, abs_lt, (show ("B" == "A") = false from rfl)]
    rfl
  · rw [show avail_pids dataC1 = ["A", "B"] from rfl]
    exact (List.Sublist.refl ["B"]).cons "A"
  · norm_num [subsetFlow, dataC1, eff_flow, lookupPump, List.lookup,
      (show ("B" == "A") = false from rfl)]
  · norm_num [subsetPower, dataC1, eff_power, lookupPump, List.lookup,
      (show ("B" == "A") = false from rfl)]

/-- C1 amended: every success record the optimiser returns meets the target,
and no qualifying subset of the available units beats it by `0.01` or more —
the returned total power is within the `0.01` tie tolerance of the true
minimum (the original claim's strict optimality holds only up to this
tolerance, as the counterexample shows). -/
theorem C1_amended {st : SessionState} {k : Nat} {data : PumpMap} {target : ℚ}
    {ar : Bool} {c : Combo}
    (h : (optimise_for_flow st k data target ar).1 = .success c) :
    target ≤ c.total_flow ∧
      ∀ s, s <+ avail_pids data → target ≤ subsetFlow data s →
        c.total_power < subsetPower data s + 1/100 := by
  have hmem := success_mem h
  obtain ⟨hval, habs⟩ := mem_best_combos_elim hmem
  obtain ⟨best, rest, h3⟩ : ∃ b r, sorted_combos data target = b :: r := by
    cases hs : sorted_combos data target with
    | nil =>
      rw [best_combos, hs] at hmem
      exact absurd hmem (List.not_mem_nil _)
    | cons a l => exact ⟨a, l, rfl⟩
  have hh : (sorted_combos data target).headI = best := by rw [h3]; rfl
  rw [hh] at habs
  obtain ⟨_, _, _, ht⟩ := mem_valid_combos_elim hval
  refine ⟨ht, ?_⟩
  intro s hs hflow
  have hsmem := sublist_mem_valid_combos hs hflow
  have hmin : best.total_power ≤ subsetPower data s := sorted_head_min h3 _ hsmem
  have habs' := (abs_lt.mp habs).2
  linarith

/-- Witness for the amended C1: one available pump, target 50, no random
tie-break. -/
theorem C1_amended_witness :
    (optimise_for_flow ⟨none, false⟩ 0 dataA 50 false).1 =
        .success ⟨["P1"], 100, 10⟩ ∧
      (50 : ℚ) ≤ (⟨["P1"], 100, 10⟩ : Combo).total_flow ∧
      (⟨["P1"], 100, 10⟩ : Combo).total_power < subsetPower dataA ["P1"] + 1/100 := by
  have h : (optimise_for_flow ⟨none, false⟩ 0 dataA 50 false).1 =
      .success ⟨["P1"], 100, 10⟩ := by
    norm_num [optimise_for_flow, dataA, total_available_flow, eff_flow, eff_power,
      sorted_combos, valid_combos, avail_pids, flagLists, comboFor, activeOf, subsetFlow,
      subsetPower, lookupPump, best_combos, List.insertionSort, List.orderedInsert, powLe,
      List.lookup]
  have res := C1_amended h
  refine ⟨h, res.1, res.2 ["P1"] ?_ ?_⟩
  · rw [show avail_pids dataA = ["P1"] from rfl]
  · norm_num [subsetFlow, dataA, eff_flow, lookupPump, List.lookup]

theorem avail_pids_nodup {data : PumpMap} (hnd : (data.map Prod.fst).Nodup) :
    (avail_pids data).Nodup := by
  have hsub : avail_pids data <+ data.map Prod.fst :=
    (data.filter_sublist).map Prod.fst
  exact hnd.sublist hsub

theorem sublist_perm_eq {α : Type} : ∀ {l s₁ s₂ : List α}, l.Nodup →
    s₁ <+ l → s₂ <+ l → s₁ ~ s₂ → s₁ = s₂ := by
  intro l
  induction l with
  | nil =>
    intro s₁ s₂ _ h1 h2 _
    rw [List.sublist_nil.mp h1, List.sublist_nil.mp h2]
  | cons a t ih =>
    intro s₁ s₂ hnd h1 h2 hp
    rw [List.nodup_cons] at hnd
    rcases List.sublist_cons_iff.mp h1 with h1' | ⟨r₁, rfl, h1'⟩
    · rcases List.sublist_cons_iff.mp h2 with h2' | ⟨r₂, rfl, h2'⟩
      · exact ih hnd.2 h1' h2' hp
      · have ha : a ∈ s₁ := hp.mem_iff.mpr (List.mem_cons_self a r₂)
        exact absurd (h1'.subset ha) hnd.1
    · rcases List.sublist_cons_iff.mp h2 with h2' | ⟨r₂, rfl, h2'⟩
      · have ha : a ∈ s₂ := hp.mem_iff.mp (List.mem_cons_self a r₁)
        exact absurd (h2'.subset ha) hnd.1
      · rw [ih hnd.2 h1' h2' hp.cons_inv]

/-- Under a well-formed mapping, the fingerprint identifies a qualifying
candidate uniquely: active sets are sublists of the nodup `pids`, so equal
multisets force equal records. -/
theorem valid_combo_ext {data : PumpMap} {t : ℚ} {c c' : Combo}
    (hnd : (data.map Prod.fst).Nodup)
    (hc : c ∈ valid_combos data t) (hc' : c' ∈ valid_combos data t)
    (hfp : fingerprint c = fingerprint c') : c = c' := by
  obtain ⟨hs, hf, hp, _⟩ := mem_valid_combos_elim hc
  obtain ⟨hs', hf', hp', _⟩ := mem_valid_combos_elim hc'
  have hperm : c.pumps_on ~ c'.pumps_on := Multiset.coe_eq_coe.mp hfp
  have heq : c.pumps_on = c'.pumps_on :=
    sublist_perm_eq (avail_pids_nodup hnd) hs hs' hperm
  calc c = ⟨c.pumps_on, subsetFlow data c.pumps_on, subsetPower data c.pumps_on⟩ := by
        rw [← hf, ← hp]
    _ = ⟨c'.pumps_on, subsetFlow data c'.pumps_on, subsetPower data c'.pumps_on⟩ := by
        rw [heq]
    _ = c' := by rw [← hf', ← hp']

theorem find?_eq_of_unique {p : Combo → Bool} {l : List Combo} {c₀ : Combo}
    (hmem : c₀ ∈ l) (hp : p c₀ = true) (huniq : ∀ c ∈ l, p c = true → c = c₀) :
    l.find? p = some c₀ := by
  induction l with
  | nil => exact absurd hmem (List.not_mem_nil _)
  | cons a t ih =>
    by_cases hpa : p a = true
    · rw [List.find?_cons_of_pos _ hpa, huniq a (List.mem_cons_self a t) hpa]
    · rw [List.find?_cons_of_neg _ (by simp [hpa])]
      rcases List.mem_cons.mp hmem with rfl | hmem'
      · exact absurd hp hpa
      · exact ih hmem' (fun c hc hpc => huniq c (List.mem_cons_of_mem a hc) hpc)

/-- C6: if several candidates are tied, the reset flag is not requested, and
the remembered fingerprint matches one of the tied candidates, the optimiser
returns that matching candidate with the session state unchanged — a re-run
without reset preserves the previously selected active set while it remains
tied-optimal. -/
theorem C6_tie_stability (st : SessionState) (k : Nat) (data : PumpMap)
    (target : ℚ) (c₀ : Combo)
    (hnd : (data.map Prod.fst).Nodup)
    (hnn : ∀ p ∈ data, 0 ≤ eff_flow p.2)
    (hreset : st.reset_selection = false)
    (hhash : st.last_solution_hash = some (fingerprint c₀))
    (hmem : c₀ ∈ best_combos data target)
    (hlen : 1 < (best_combos data target).length) :
    optimise_for_flow st k data target true = (.success c₀, st) := by
  have hval : c₀ ∈ valid_combos data target := (mem_best_combos_elim hmem).1
  have h1 : ¬ total_available_flow data < target :=
    not_lt.mpr (feasible_of_mem_valid hnd hnn hval)
  have h2 : sorted_combos data target ≠ [] := by
    intro hs
    rw [sorted_combos_eq_nil_iff.mp hs] at hval
    exact List.not_mem_nil _ hval
  have hfind : (best_combos data target).find?
      (fun c => decide (fingerprint c = fingerprint c₀)) = some c₀ := by
    refine find?_eq_of_unique hmem (by simp) ?_
    intro c hc hpc
    exact valid_combo_ext hnd (mem_best_combos_elim hc).1 hval (of_decide_eq_true hpc)
  rw [optimise_for_flow, if_neg h1, if_neg h2]
  simp only
  rw [if_pos (⟨trivial, hlen⟩ : True ∧ 1 < (best_combos data target).length)]
  rw [if_neg (by simp [hreset])]
  simp only [hhash, hfind]

/-- Witness for C6: the fingerprint of the tied non-head candidate `{A}` is
remembered, reset is off, and the optimiser returns `{A}` again. -/
theorem C6_tie_stability_witness :
    (⟨["A"], 100, 2001/200⟩ : Combo) ∈ best_combos dataC1 100 ∧
      1 < (best_combos dataC1 100).length ∧
      optimise_for_flow ⟨some (fingerprint ⟨["A"], 100, 2001/200⟩), false⟩ 0 dataC1 100 true =
        (.success ⟨["A"], 100, 2001/200⟩,
          ⟨some (fingerprint ⟨["A"], 100, 2001/200⟩), false⟩) := by
  have hmem : (⟨["A"], 100, 2001/200⟩ : Combo) ∈ best_combos dataC1 100 := by
    norm_num [best_combos, sorted_combos, valid_combos, dataC1, eff_flow, eff_power,
      avail_pids, flagLists, comboFor, activeOf, subsetFlow, subsetPower, lookupPump,
      List.lookup, List.insertionSort, List.orderedInsert, powLe, abs_lt,
      (show ("B" == "A") = false from rfl)]
  have hlen : 1 < (best_combos dataC1 100).length := by
    norm_num [best_combos, sorted_combos, valid_combos, dataC1, eff_flow, eff_power,
      avail_pids, flagLists, comboFor, activeOf, subsetFlow, subsetPower, lookupPump,
      List.lookup, List.insertionSort, List.orderedInsert, powLe, abs_lt,
      (show ("B" == "A") = false from rfl)]
  exact ⟨hmem, hlen,
    C6_tie_stability _ 0 dataC1 100 _ (by decide)
      (by decide) rfl rfl hmem hlen⟩

theorem insertionSort_head_of_min {a : Combo} {t : List Combo}
    (h : ∀ x ∈ t, powLe a x) :
    ∃ t', (a :: t).insertionSort powLe = a :: t' := by
  rw [List.insertionSort]
  cases hs : t.insertionSort powLe with
  | nil => exact ⟨[], by rw [List.orderedInsert_nil]⟩
  | cons b l' =>
    have hb : b ∈ t :=
      (List.perm_insertionSort powLe t).subset (hs ▸ List.mem_cons_self b l')
    exact ⟨b :: l', List.orderedInsert_of_le powLe l' (h b hb)⟩

theorem valid_combos_zero_cons (data : PumpMap) :
    ∃ tl, valid_combos data 0 = ⟨[], 0, 0⟩ :: tl := by
  obtain ⟨tl, htl⟩ := flagLists_head (avail_pids data).length
  refine ⟨(tl.map (comboFor data (avail_pids data))).filter
    (fun c => (0:ℚ) ≤ c.total_flow), ?_⟩
  rw [valid_combos, htl, List.map_cons, List.filter_cons]
  have hcombo : comboFor data (avail_pids data)
      (List.replicate (avail_pids data).length false) = ⟨[], 0, 0⟩ := by
    rw [comboFor, activeOf_replicate_false]
    rfl
  rw [hcombo]
  rw [if_pos (by norm_num)]

theorem valid_combo_power_nonneg {data : PumpMap} {t : ℚ} {c : Combo}
    (hnn : ∀ p ∈ data, 0 ≤ eff_power p.2) (hc : c ∈ valid_combos data t) :
    0 ≤ c.total_power := by
  obtain ⟨hs, _, hp, _⟩ := mem_valid_combos_elim hc
  rw [hp]
  exact subsetPower_nonneg hnn (fun pid hpid => hs.subset hpid)

/-- A zero-power pump that creates a tie with the empty set at target 0. -/
def dataC4 : PumpMap := [("A", ⟨100, 1/200, none, none, true⟩)]

/-- C4 counterexample: with one available pump of effective power `0.005`
(non-negative flows and powers, as the claim requires) and target flow `0`,
the empty set and `{A}` are tied within the `0.01` tolerance; with a reset
requested and random draw index 1, the optimiser returns the success record
for `{A}` — whose active set is NOT empty and whose total power is NOT 0. -/
theorem C4_counterexample :
    (∀ p ∈ dataC4, 0 ≤ eff_flow p.2 ∧ 0 ≤ eff_power p.2) ∧
      (optimise_for_flow ⟨none, true⟩ 1 dataC4 0 true).1 =
        .success ⟨["A"], 100, 1/200⟩ ∧
      (["A"] : List String) ≠ [] ∧ (1/200 : ℚ) ≠ 0 := by
  refine ⟨by norm_num [dataC4, eff_flow, eff_power], ?_, by simp, by norm_num⟩
  norm_num [optimise_for_flow, dataC4, total_available_flow, eff_flow, eff_power,
    sorted_combos, valid_combos, avail_pids, flagLists, comboFor, activeOf, subsetFlow,
    subsetPower, lookupPump, best_combos, List.insertionSort, List.orderedInsert, powLe,
    List.lookup, fingerprint, abs_lt]
  rfl

/-- C4 amended: at target 0 the optimiser always returns a success record,
whose total power lies in `[0, 0.01)` (the tie tolerance around the zero-power
optimum; it need not be exactly 0 when a near-zero-power unit ties with the
empty set); and with `allow_random = False` the returned record is exactly the
empty active set with total power 0. -/
theorem C4_target_zero (st st' : SessionState) (k k' : Nat) (data : PumpMap)
    (ar : Bool)
    (hnn : ∀ p ∈ data, 0 ≤ eff_flow p.2 ∧ 0 ≤ eff_power p.2) :
    (∃ c, (optimise_for_flow st k data 0 ar).1 = .success c ∧
        0 ≤ c.total_power ∧ c.total_power < 1/100) ∧
      (optimise_for_flow st' k' data 0 false).1 = .success ⟨[], 0, 0⟩ := by
  have hflow : ∀ p ∈ data, 0 ≤ eff_flow p.2 := fun p hp => (hnn p hp).1
  have hpow : ∀ p ∈ data, 0 ≤ eff_power p.2 := fun p hp => (hnn p hp).2
  have h1 : ¬ total_available_flow data < 0 :=
    not_lt.mpr (total_available_flow_nonneg hflow)
  obtain ⟨tl, htl⟩ := valid_combos_zero_cons data
  have h2 : sorted_combos data 0 ≠ [] := by
    rw [Ne, sorted_combos_eq_nil_iff, htl]
    exact List.cons_ne_nil _ _
  obtain ⟨best, rest, h3⟩ : ∃ b r, sorted_combos data 0 = b :: r := by
    cases hs : sorted_combos data 0 with
    | nil => exact absurd hs h2
    | cons a l => exact ⟨a, l, rfl⟩
  have hminle : best.total_power ≤ 0 :=
    sorted_head_min h3 ⟨[], 0, 0⟩ (htl ▸ List.mem_cons_self _ _)
  have hbest0 : best.total_power = 0 :=
    le_antisymm hminle (valid_combo_power_nonneg hpow (head_mem_valid h3))
  constructor
  · obtain ⟨c, hc, hcmem⟩ := optimise_success_exists st k data 0 ar h1 h2
    obtain ⟨hcval, habs⟩ := mem_best_combos_elim hcmem
    have hh : (sorted_combos data 0).headI = best := by rw [h3]; rfl
    rw [hh, hbest0, sub_zero] at habs
    exact ⟨c, hc, valid_combo_power_nonneg hpow hcval, (abs_lt.mp habs).2⟩
  · have hsorthead : sorted_combos data 0 = ⟨[], 0, 0⟩ :: (sorted_combos data 0).tail := by
      have hmin : ∀ x ∈ tl, powLe (⟨[], 0, 0⟩ : Combo) x := by
        intro x hx
        have hxv : x ∈ valid_combos data 0 := htl ▸ List.mem_cons_of_mem _ hx
        exact valid_combo_power_nonneg hpow hxv
      obtain ⟨t', ht'⟩ := insertionSort_head_of_min hmin
      rw [sorted_combos, htl, ht']
      rfl
    rw [optimise_for_flow, if_neg h1, if_neg h2]
    simp only
    rw [if_neg (by simp)]
    simp only [Prod.fst]
    rw [best_combos_headI hsorthead]

/-- Witness for the amended C4: one available pump of flow 100 and power 10. -/
theorem C4_target_zero_witness :
    (∀ p ∈ dataA, 0 ≤ eff_flow p.2 ∧ 0 ≤ eff_power p.2) ∧
      (∃ c, (optimise_for_flow ⟨none, true⟩ 0 dataA 0 true).1 = .success c ∧
          0 ≤ c.total_power ∧ c.total_power < 1/100) ∧
      (optimise_for_flow ⟨none, true⟩ 0 dataA 0 false).1 = .success ⟨[], 0, 0⟩ :=
  ⟨by decide,
    (C4_target_zero ⟨none, true⟩ ⟨none, true⟩ 0 0 dataA true (by decide)).1,
    (C4_target_zero ⟨none, true⟩ ⟨none, true⟩ 0 0 dataA true (by decide)).2⟩

end PumpOpt
